import Mathlib

set_option maxHeartbeats 1000000

/-! Shallow embedding of apps/plexi/plexi-rpl.c, the Contiki plexi RPL DoDAG
resource module.

Network addresses (uip_ipaddr_t) are modelled as natural numbers; the value 0
plays the role of the all-zero address that the zero-initialised global array
`actual_routes` holds in its `route` fields after `plexi_rpl_init` (which only
sets every `last_seen` to -1). Timestamps (`clock_seconds()`) are modelled
from the spec as ideal non-negative time values, stored into the signed
`last_seen` field (a C `long`, embedded as `Int`, sentinel -1 meaning the
slot is free). -/

/-- Configuration constant PLEXI_RPL_UPDATE_INTERVAL (default 30 seconds),
used both as the debounce interval and as the staleness threshold. -/
def PLEXI_RPL_UPDATE_INTERVAL : Nat := 30

/-- One slot of the reachability table (struct plexi_actual_route_struct). -/
structure plexi_actual_route where
  route : Nat
  last_seen : Int
  deriving DecidableEq

/-- The global table right after plexi_rpl_init: every slot free, every route
field the all-zero address. -/
def initTable (n : Nat) : List plexi_actual_route :=
  List.replicate n { route := 0, last_seen := -1 }

/-- First loop of plexi_rpl_packet_received (source lines 275-286): refresh
`last_seen` of the first slot whose route field equals the source address,
then break. The match does not look at `last_seen`, so a free slot whose
stale route field equals the address is matched too. -/
def packet_received_refresh : List plexi_actual_route → Nat → Nat → List plexi_actual_route
  | [], _, _ => []
  | s :: rest, a, t =>
    if s.route = a then { s with last_seen := (t : Int) } :: rest
    else s :: packet_received_refresh rest a t

/-- Second loop of plexi_rpl_packet_received (source lines 287-298): claim the
first free slot for the address. In the source this loop is guarded by
`if(!updated)`, but `updated` is never set to 1 (the assignment at line 281
is commented out), so the guard is always true and the loop always runs. -/
def packet_received_claim : List plexi_actual_route → Nat → Nat → List plexi_actual_route
  | [], _, _ => []
  | s :: rest, a, t =>
    if s.last_seen = -1 then { route := a, last_seen := (t : Int) } :: rest
    else s :: packet_received_claim rest a t

/-- plexi_rpl_packet_received: observe traffic from address `a` at time `t`.
The claim loop runs on the table already updated by the refresh loop. -/
def plexi_rpl_packet_received (tbl : List plexi_actual_route) (a t : Nat) :
    List plexi_actual_route :=
  packet_received_claim (packet_received_refresh tbl a t) a t

/-- Fold a sequence of (address, timestamp) observations through
plexi_rpl_packet_received. -/
def runObserves (ps : List (Nat × Nat)) (tbl : List plexi_actual_route) :
    List plexi_actual_route :=
  ps.foldl (fun T p => plexi_rpl_packet_received T p.1 p.2) tbl

/-- Number of occupied (live) slots of the table. -/
def liveCount (tbl : List plexi_actual_route) : Nat :=
  (tbl.filter (fun s => s.last_seen != -1)).length

/-- Number of live slots holding address `a`. -/
def entryCount (tbl : List plexi_actual_route) (a : Nat) : Nat :=
  (tbl.filter (fun s => s.route == a && s.last_seen != -1)).length

/-- Live-entry membership test for an address. This is exactly the inner
filter loop of the GET handler (source lines 196-209): a route is displayed
iff some slot holds its next hop with `last_seen != -1`. -/
def hasEntry (tbl : List plexi_actual_route) (a : Nat) : Bool :=
  tbl.any (fun s => s.route == a && s.last_seen != -1)

/-- Some slot of the table is free. -/
def hasFree (tbl : List plexi_actual_route) : Bool :=
  tbl.any (fun s => s.last_seen == -1)

/-- Body of one sweep tick of PROCESS blabla (source lines 316-324): scan the
slots in order and free the first one whose `last_seen` lies strictly below
`now` minus the interval, then break. `clock_seconds()` is modelled from the
spec as an ideal non-negative timestamp and the comparison runs over the
integers, as the signed C `long last_seen` suggests; note that under this
reading the free sentinel -1 also satisfies the test once `now` reaches the
threshold. -/
def blabla_sweep (now : Nat) : List plexi_actual_route → List plexi_actual_route
  | [] => []
  | s :: rest =>
    if s.last_seen < (now : Int) - PLEXI_RPL_UPDATE_INTERVAL then
      { route := s.route, last_seen := -1 } :: rest
    else s :: blabla_sweep now rest

/-- Event codes delivered to rpl_changed_callback (the uip-ds6 notification
codes it tests for, plus a catch-all for every other code). -/
inductive uip_ds6_event where
  | route_add
  | route_rm
  | other_evt
  deriving DecidableEq

/-- rpl_changed_callback (source lines 260-267): a route-add or route-remove
event (re)sets the single-shot debounce timer to fire
PLEXI_RPL_UPDATE_INTERVAL after the event (ctimer_set restarts a pending
timer); any other event leaves the timer state alone. -/
def rpl_changed_callback (ev : uip_ds6_event) (t : Nat) (timer : Option Nat) :
    Option Nat :=
  match ev with
  | .route_add => some (t + PLEXI_RPL_UPDATE_INTERVAL)
  | .route_rm => some (t + PLEXI_RPL_UPDATE_INTERVAL)
  | .other_evt => timer

/-- Modelled from the spec: the host ctimer facility (sys/ctimer, not under
src/) as the single-shot restart timer of spec section 4.3. The timeline
consumes events in time order; a pending timer due at or before the next
event fires first, and a timer still pending after the last event fires
after it. Each fire invokes plexi_rpl_changed_handler, hence
plexi_dag_event_handler, delivering exactly one subscriber notification;
the returned list is the sequence of notification (fire) times. -/
def debounceRun : List (Nat × uip_ds6_event) → Option Nat → List Nat
  | [], some f => [f]
  | [], none => []
  | (t, ev) :: rest, some f =>
    if f ≤ t then f :: debounceRun rest (rpl_changed_callback ev t none)
    else debounceRun rest (rpl_changed_callback ev t (some f))
  | (t, ev) :: rest, none => debounceRun rest (rpl_changed_callback ev t none)

/-- Burst shape: seen from previous time `tp`, every event is a route change
and arrives no earlier than its predecessor and strictly less than the
debounce interval after it. -/
def burstFrom : Nat → List (Nat × uip_ds6_event) → Bool
  | _, [] => true
  | tp, (t, ev) :: rest =>
    decide (tp ≤ t) && decide (t < tp + PLEXI_RPL_UPDATE_INTERVAL) &&
      decide (ev = .route_add ∨ ev = .route_rm) && burstFrom t rest

/-- Time of the last event of a list, default `d` for the empty list. -/
def lastTime (d : Nat) (es : List (Nat × uip_ds6_event)) : Nat :=
  es.foldl (fun _ p => p.1) d

/-- plexi_dag_event_handler (source lines 247-253): sets the global
new_notification flag to 1 (and asks the REST engine to notify the
subscribers, which re-runs the GET handler). Returns the new flag value. -/
def plexi_dag_event_handler (_notif : Bool) : Bool :=
  true

/-- Requested representation carried by the request's accept header
(REST.get_header_accept, source lines 155-158): absent (the local variable
keeps its initial -1), JSON, or some other representation. -/
inductive coap_accept where
  | absent
  | json
  | other
  deriving DecidableEq

/-- Response status as set by the GET handler: success with JSON payload,
BAD_OPTION_4_02 (BlockOutOfScope), NOT_ACCEPTABLE_4_06, or left unset. -/
inductive CoapStatus where
  | ok
  | badOption
  | notAcceptable
  | unset
  deriving DecidableEq

/-- The chunk cursor of one GET call: the fixed buffer capacity
(preferred_size), the bytes written so far into the buffer (bufpos is
buf.length), the running logical position (strpos) and the resume offset the
call serializes from (the normalised *offset). -/
structure Cursor where
  cap : Nat
  buf : List Char
  strpos : Nat
  off : Nat
  deriving DecidableEq

/-- Modelled from the spec: plexi_reply_char_if_possible (module plexi.c,
not under src/), per spec section 4.1 at byte granularity. A byte is copied
into the buffer when the logical position has reached the resume offset and
the buffer still has room; the logical position always advances by one. -/
def emitChar (c : Cursor) (ch : Char) : Cursor :=
  if c.off ≤ c.strpos ∧ c.buf.length < c.cap then
    { c with buf := c.buf ++ [ch], strpos := c.strpos + 1 }
  else
    { c with strpos := c.strpos + 1 }

/-- Modelled from the spec: plexi_reply_string_if_possible and
plexi_reply_ip_if_possible (module plexi.c, not under src/): an item is
emitted byte by byte, so bytes before the resume offset are computed but
discarded and a tail that does not fit in the buffer is dropped, while the
logical position advances by the full item length. -/
def emitStr (c : Cursor) (s : List Char) : Cursor :=
  s.foldl emitChar c

/-- Fixed collaborator data of the handler: the DAG_PARENT_LABEL and
DAG_CHILD_LABEL strings (plexi-interface.h, not under src/) and the textual
address formatter used by plexi_reply_ip_if_possible. -/
structure EmitEnv where
  parentLabel : List Char
  childLabel : List Char
  fmt : Nat → List Char

/-- One uip_ds6 route: its destination address (what the handler prints) and
its next hop (what the reachability filter tests). -/
structure plexi_route where
  ipaddr : Nat
  nexthop : Nat
  deriving DecidableEq

/-- Fixed snapshot of the state the GET handler serializes: the chosen
default route's address as displayed (after the prefix substitution of
source lines 173-175; none when uip_ds6_defrt_lookup finds no default
route), the uip_ds6 route list in native iteration order, and the
reachability table actual_routes. -/
structure DagSnapshot where
  defaultRoute : Option Nat
  routes : List plexi_route
  table : List plexi_actual_route

/-- Child route loop of the GET handler (source lines 191-213): for each
route whose next hop has a live reachability entry, emit a comma (unless it
is the first displayed item), the quoted formatted destination address, and
clear first_item; after each route, break out of the loop when the buffer
has overrun the preferred size and logical output past the buffer extends
beyond the resume offset. -/
def emitChildren (env : EmitEnv) (tbl : List plexi_actual_route) :
    List plexi_route → Bool → Cursor → Cursor
  | [], _, c => c
  | r :: rest, first, c =>
    let c2 := if hasEntry tbl r.nexthop then
        emitChar (emitStr (emitChar (if first then c else emitChar c ',') '"')
          (env.fmt r.ipaddr)) '"'
      else c
    let first2 := if hasEntry tbl r.nexthop then false else first
    if c2.cap < c2.buf.length ∧ c2.off < c2.strpos - c2.buf.length then c2
    else emitChildren env tbl rest first2 c2

/-- The emission sequence of one GET call (source lines 166-216), in source
order: opening brace; the parent section (a one-element address array when a
default route exists, an empty array otherwise); the children label; the
reachability-filtered child list; the closing bracket and brace. -/
def serializeDag (env : EmitEnv) (st : DagSnapshot) (c0 : Cursor) : Cursor :=
  let ca := emitChar c0 '\x7b'
  let cb :=
    match st.defaultRoute with
    | some pa =>
      let p1 := emitChar ca '"'
      let p2 := emitStr p1 env.parentLabel
      let p3 := emitStr p2 ("\":[\"".toList)
      let p4 := emitStr p3 (env.fmt pa)
      emitStr p4 ("\"]".toList)
    | none =>
      let q1 := emitChar ca '"'
      let q2 := emitStr q1 env.parentLabel
      emitStr q2 ("\":[]".toList)
  let cc := emitStr cb (",\"".toList)
  let cd := emitStr cc env.childLabel
  let ce := emitStr cd ("\":[".toList)
  let cf := emitChildren env st.table st.routes true ce
  emitStr cf ("]\x7d".toList)

/-- What one GET handler call returns and leaves behind: the response status
and payload, the value written back through the offset pointer, and the
value of the global new_notification flag after the call. -/
structure GetResult where
  status : CoapStatus
  payload : List Char
  offsetOut : Int
  notifOut : Bool
  deriving DecidableEq

/-- plexi_get_dag_handler (source lines 147-245). An accept header that is
neither absent nor JSON gets NOT_ACCEPTABLE_4_06 with new_notification
cleared and the offset untouched. Otherwise *offset is reset to 0 when the
call is notification-driven or carries the fresh sentinel -1; the snapshot
is serialized through the chunk cursor; a non-empty buffer is returned as a
success payload, an empty buffer with logical output yields
BAD_OPTION_4_02 with the BlockOutOfScope diagnostic; finally new_notification
is cleared and *offset becomes -1 when the logical output ended within this
call, else it advances by preferred_size. -/
def plexi_get_dag_handler (env : EmitEnv) (st : DagSnapshot)
    (accept : coap_accept) (preferred_size : Nat) (offsetIn : Int)
    (notifIn : Bool) : GetResult :=
  if accept = coap_accept.other then
    { status := .notAcceptable, payload := [], offsetOut := offsetIn,
      notifOut := false }
  else
    let off : Nat := if notifIn ∨ offsetIn = -1 then 0 else offsetIn.toNat
    let c := serializeDag env st { cap := preferred_size, buf := [], strpos := 0, off := off }
    { status := if 0 < c.buf.length then .ok
        else if 0 < c.strpos then .badOption else .unset,
      payload := if 0 < c.buf.length then c.buf
        else if 0 < c.strpos then "BlockOutOfScope".toList else [],
      offsetOut := if c.strpos ≤ off + preferred_size then -1
        else (off : Int) + (preferred_size : Int),
      notifOut := false }

/-- The block-wise retrieval loop of the transport (spec sections 3 and 8):
starting from the fresh sentinel, call the GET handler, append the payload
of each successful exchange, and continue from the returned offset until the
sentinel -1 comes back. Fuel bounds the number of exchanges. -/
def collectChunks (env : EmitEnv) (st : DagSnapshot) (cap : Nat) :
    Nat → Int → Bool → List Char → List Char
  | 0, _, _, acc => acc
  | fuel + 1, off, notif, acc =>
    let r := plexi_get_dag_handler env st coap_accept.json cap off notif
    let acc2 := if r.status = CoapStatus.ok then acc ++ r.payload else acc
    if r.offsetOut = -1 then acc2
    else collectChunks env st cap fuel r.offsetOut r.notifOut acc2

/-- The parent section of the logical output. -/
def parentDoc (env : EmitEnv) : Option Nat → List Char
  | some pa => '"' :: (env.parentLabel ++ "\":[\"".toList ++ env.fmt pa ++ "\"]".toList)
  | none => '"' :: (env.parentLabel ++ "\":[]".toList)

/-- The bytes one displayed child contributes to the logical output. -/
def childItem (env : EmitEnv) (r : plexi_route) (first : Bool) : List Char :=
  (if first then [] else [',']) ++ '"' :: (env.fmt r.ipaddr ++ ['"'])

/-- The child-list section of the logical output: the reachability-filtered
routes, comma-joined. -/
def childrenDoc (env : EmitEnv) (tbl : List plexi_actual_route) :
    List plexi_route → Bool → List Char
  | [], _ => []
  | r :: rest, first =>
    if hasEntry tbl r.nexthop then
      childItem env r first ++ childrenDoc env tbl rest false
    else childrenDoc env tbl rest first

/-- The full logical output of one snapshot: what an unbounded single-shot
serialization produces. -/
def dagDocument (env : EmitEnv) (st : DagSnapshot) : List Char :=
  '\x7b' :: (parentDoc env st.defaultRoute ++ ",\"".toList ++ env.childLabel
    ++ "\":[".toList ++ childrenDoc env st.table st.routes true ++ "]\x7d".toList)

/-- The cursor state after pushing the logical prefix `p` through the emit
primitives from a fresh cursor with capacity `cap` and resume offset `off`. -/
def cursorAt (cap off : Nat) (p : List Char) : Cursor :=
  { cap := cap, buf := (p.drop off).take cap, strpos := p.length, off := off }


/-- A concrete emit environment used to evaluate the model: labels "p" and
"c", addresses formatted as their last decimal digit. -/
def envW : EmitEnv :=
  { parentLabel := "p".toList, childLabel := "c".toList,
    fmt := fun a => [Char.ofNat (48 + a % 10)] }

/-- A concrete snapshot used to evaluate the model: a default route, three
routes of which the second has no live reachability entry for its next hop,
and a three-slot table with one free slot. -/
def stW : DagSnapshot :=
  { defaultRoute := some 3,
    routes := [{ ipaddr := 1, nexthop := 5 }, { ipaddr := 2, nexthop := 6 },
      { ipaddr := 4, nexthop := 9 }],
    table := [{ route := 5, last_seen := 4 }, { route := 9, last_seen := 7 },
      { route := 6, last_seen := -1 }] }

/-! Theorems. First the debounce notifier, the sweep and the table. -/

theorem debounceRun_armed_burst (rest : List (Nat × uip_ds6_event)) :
    ∀ tp : Nat, burstFrom tp rest = true →
      debounceRun rest (some (tp + PLEXI_RPL_UPDATE_INTERVAL))
        = [lastTime tp rest + PLEXI_RPL_UPDATE_INTERVAL] := by
  induction rest with
  | nil => intro tp _; rfl
  | cons p rest ih =>
    intro tp h
    obtain ⟨t, ev⟩ := p
    simp only [burstFrom, Bool.and_eq_true, decide_eq_true_eq] at h
    obtain ⟨⟨⟨h1, h2⟩, h3⟩, h4⟩ := h
    show debounceRun ((t, ev) :: rest) (some (tp + PLEXI_RPL_UPDATE_INTERVAL)) = _
    rw [debounceRun, if_neg (by omega)]
    have hcb : rpl_changed_callback ev t (some (tp + PLEXI_RPL_UPDATE_INTERVAL))
        = some (t + PLEXI_RPL_UPDATE_INTERVAL) := by
      rcases h3 with h3 | h3 <;> subst h3 <;> rfl
    rw [hcb, ih t h4]
    rfl

/-- C6: a burst of route-add or route-remove events whose consecutive gaps
are all strictly below the debounce interval produces exactly one
notification, fired one interval after the last event of the burst. -/
theorem rpl_debounce_coalescing (t0 : Nat) (ev0 : uip_ds6_event)
    (rest : List (Nat × uip_ds6_event))
    (h0 : ev0 = .route_add ∨ ev0 = .route_rm)
    (hb : burstFrom t0 rest = true) :
    debounceRun ((t0, ev0) :: rest) none
      = [lastTime t0 rest + PLEXI_RPL_UPDATE_INTERVAL] := by
  have hcb : rpl_changed_callback ev0 t0 none
      = some (t0 + PLEXI_RPL_UPDATE_INTERVAL) := by
    rcases h0 with h0 | h0 <;> subst h0 <;> rfl
  show debounceRun ((t0, ev0) :: rest) none = _
  rw [debounceRun, hcb, debounceRun_armed_burst rest t0 hb]

/-- C6 witness: three events at times 0, 10, 20 yield the single
notification at time 50. -/
theorem rpl_debounce_coalescing_witness :
    debounceRun [(0, .route_add), (10, .route_rm), (20, .route_add)] none = [50] :=
  rpl_debounce_coalescing 0 .route_add [(10, .route_rm), (20, .route_add)]
    (Or.inl rfl) (by decide)

theorem blabla_sweep_frees_first (now : Nat) (pre : List plexi_actual_route)
    (s : plexi_actual_route) (post : List plexi_actual_route)
    (hpre : ∀ x ∈ pre, ¬(x.last_seen < (now : Int) - PLEXI_RPL_UPDATE_INTERVAL))
    (hs : s.last_seen < (now : Int) - PLEXI_RPL_UPDATE_INTERVAL) :
    blabla_sweep now (pre ++ s :: post)
      = pre ++ { route := s.route, last_seen := -1 } :: post := by
  induction pre with
  | nil => simp only [List.nil_append, blabla_sweep, if_pos hs]
  | cons x pre ih =>
    have hx : ¬(x.last_seen < (now : Int) - PLEXI_RPL_UPDATE_INTERVAL) :=
      hpre x (List.mem_cons_self x pre)
    simp only [List.cons_append, blabla_sweep, if_neg hx]
    show x :: blabla_sweep now (pre ++ s :: post)
      = x :: (pre ++ { route := s.route, last_seen := -1 } :: post)
    rw [ih (fun y hy => hpre y (List.mem_cons_of_mem x hy))]

theorem blabla_sweep_all_fresh (now : Nat) (tbl : List plexi_actual_route)
    (h : ∀ x ∈ tbl, ¬(x.last_seen < (now : Int) - PLEXI_RPL_UPDATE_INTERVAL)) :
    blabla_sweep now tbl = tbl := by
  induction tbl with
  | nil => rfl
  | cons x tbl ih =>
    have hx : ¬(x.last_seen < (now : Int) - PLEXI_RPL_UPDATE_INTERVAL) :=
      h x (List.mem_cons_self x tbl)
    simp only [blabla_sweep, if_neg hx]
    rw [ih (fun y hy => h y (List.mem_cons_of_mem x hy))]

/-- C5 counterexample: at now = 31 (threshold 30) a free slot sitting before
a live entry last seen at time 0 is what the sweep matches first (the free
sentinel -1 passes the test last_seen < now - threshold), so the sweep
returns the table unchanged and the genuinely stale entry, of age 31 > 30,
is not freed by this call nor by any later one while the free slot precedes
it. -/
theorem blabla_sweep_counterexample :
    blabla_sweep 31 [{ route := 1, last_seen := -1 }, { route := 7, last_seen := 0 }]
      = [{ route := 1, last_seen := -1 }, { route := 7, last_seen := 0 }]
    ∧ (31 : Int) - 0 > (PLEXI_RPL_UPDATE_INTERVAL : Int) := by
  exact ⟨by decide, by decide⟩

/-- C5 amended: one sweep invocation scans the slots in order and frees the
first slot satisfying last_seen < now - threshold, a test the free sentinel
-1 also passes once now reaches the threshold; it frees at most one slot per
tick, a slot failing the test is never modified (so an entry whose age is
within the threshold is never freed), and a stale entry is freed by the
sweep exactly when no earlier slot also passes the test. -/
theorem blabla_sweep_contract :
    (∀ (now : Nat) (pre : List plexi_actual_route) (s : plexi_actual_route)
        (post : List plexi_actual_route),
      (∀ x ∈ pre, ¬(x.last_seen < (now : Int) - PLEXI_RPL_UPDATE_INTERVAL)) →
      s.last_seen < (now : Int) - PLEXI_RPL_UPDATE_INTERVAL →
      blabla_sweep now (pre ++ s :: post)
        = pre ++ { route := s.route, last_seen := -1 } :: post)
    ∧ (∀ (now : Nat) (tbl : List plexi_actual_route),
      (∀ x ∈ tbl, ¬(x.last_seen < (now : Int) - PLEXI_RPL_UPDATE_INTERVAL)) →
      blabla_sweep now tbl = tbl) :=
  ⟨blabla_sweep_frees_first, blabla_sweep_all_fresh⟩

/-- C5 witness: at now = 31 the sweep frees exactly the first stale live
entry and leaves a fresh-enough table untouched. -/
theorem blabla_sweep_contract_witness :
    blabla_sweep 31 [{ route := 5, last_seen := 20 }, { route := 7, last_seen := 0 },
        { route := 9, last_seen := 8 }]
      = [{ route := 5, last_seen := 20 }, { route := 7, last_seen := -1 },
        { route := 9, last_seen := 8 }]
    ∧ blabla_sweep 31 [{ route := 5, last_seen := 25 }] = [{ route := 5, last_seen := 25 }] :=
  ⟨blabla_sweep_contract.1 31 [{ route := 5, last_seen := 20 }] { route := 7, last_seen := 0 }
      [{ route := 9, last_seen := 8 }] (by decide) (by decide),
    blabla_sweep_contract.2 31 [{ route := 5, last_seen := 25 }] (by decide)⟩

/-- C2: evaluation at the failing input. Observing the same address 5 twice
(capacity 2, timestamps 0 then 1) leaves two live entries for address 5: the
refresh loop updates slot 0, but because `updated` is never set the claim
loop then also copies the address into the free slot 1. -/
theorem packet_received_duplicate_entries :
    entryCount (plexi_rpl_packet_received
        (plexi_rpl_packet_received (initTable 2) 5 0) 5 1) 5 = 2
    ∧ runObserves [(5, 0), (5, 1)] (initTable 2)
      = [{ route := 5, last_seen := 1 }, { route := 5, last_seen := 1 }] := by
  exact ⟨by decide, by decide⟩

/-! Characterization of the emit primitives: pushing a logical prefix `p`
through them from a fresh cursor yields exactly the window of `p` between
the resume offset and the buffer capacity, with strpos tracking the full
logical length. -/

theorem cursorAt_buf_length (cap off : Nat) (p : List Char) :
    (cursorAt cap off p).buf.length = min cap (p.length - off) := by
  simp [cursorAt, List.length_take, List.length_drop]

theorem emitChar_cursorAt (cap off : Nat) (p : List Char) (b : Char) :
    emitChar (cursorAt cap off p) b = cursorAt cap off (p ++ [b]) := by
  unfold emitChar cursorAt
  dsimp only
  by_cases h1 : off ≤ p.length
  · by_cases h2 : p.length - off < cap
    · rw [if_pos ⟨h1, by rw [List.length_take, List.length_drop]; omega⟩]
      simp only [Cursor.mk.injEq, List.length_append, List.length_cons,
        List.length_nil, true_and, and_true]
      rw [List.drop_append_eq_append_drop, Nat.sub_eq_zero_of_le h1,
        List.drop_zero, List.take_append_eq_append_take, List.length_drop]
      have h3 : cap - (p.length - off) = cap - (p.length - off) - 1 + 1 := by omega
      rw [h3, List.take_succ_cons, List.take_nil]
    · rw [if_neg (by rw [List.length_take, List.length_drop]; omega)]
      simp only [Cursor.mk.injEq, List.length_append, List.length_cons,
        List.length_nil, true_and, and_true]
      rw [List.drop_append_eq_append_drop, Nat.sub_eq_zero_of_le h1,
        List.drop_zero, List.take_append_eq_append_take, List.length_drop,
        Nat.sub_eq_zero_of_le (by omega : cap ≤ p.length - off),
        List.take_zero, List.append_nil]
  · rw [if_neg (by omega)]
    simp only [Cursor.mk.injEq, List.length_append, List.length_cons,
      List.length_nil, true_and, and_true]
    rw [List.drop_eq_nil_of_le (by omega : p.length ≤ off),
      List.drop_eq_nil_of_le (by simp; omega)]

theorem emitStr_cursorAt (cap off : Nat) (s : List Char) :
    ∀ p : List Char, emitStr (cursorAt cap off p) s = cursorAt cap off (p ++ s) := by
  induction s with
  | nil => intro p; simp [emitStr]
  | cons b s ih =>
    intro p
    have hstep : emitStr (cursorAt cap off p) (b :: s)
        = emitStr (emitChar (cursorAt cap off p) b) s := rfl
    rw [hstep, emitChar_cursorAt, ih (p ++ [b])]
    simp

theorem cursorAt_no_break (cap off : Nat) (q : List Char) :
    ¬((cursorAt cap off q).cap < (cursorAt cap off q).buf.length
      ∧ (cursorAt cap off q).off
        < (cursorAt cap off q).strpos - (cursorAt cap off q).buf.length) := by
  intro h
  have h1 := h.1
  rw [cursorAt_buf_length] at h1
  simp only [cursorAt] at h1
  omega

theorem emitChildren_cursorAt (env : EmitEnv) (tbl : List plexi_actual_route)
    (cap off : Nat) (routes : List plexi_route) :
    ∀ (first : Bool) (p : List Char),
      emitChildren env tbl routes first (cursorAt cap off p)
        = cursorAt cap off (p ++ childrenDoc env tbl routes first) := by
  induction routes with
  | nil => intro first p; simp [emitChildren, childrenDoc]
  | cons r rest ih =>
    intro first p
    cases hr : hasEntry tbl r.nexthop with
    | true =>
      have hc2 : emitChar (emitStr (emitChar
          (if first then cursorAt cap off p else emitChar (cursorAt cap off p) ',') '"')
          (env.fmt r.ipaddr)) '"'
          = cursorAt cap off (p ++ childItem env r first) := by
        cases first with
        | false =>
          show emitChar (emitStr (emitChar (emitChar (cursorAt cap off p) ',') '"')
            (env.fmt r.ipaddr)) '"' = _
          rw [emitChar_cursorAt, emitChar_cursorAt, emitStr_cursorAt, emitChar_cursorAt]
          simp [childItem, List.append_assoc]
        | true =>
          show emitChar (emitStr (emitChar (cursorAt cap off p) '"')
            (env.fmt r.ipaddr)) '"' = _
          rw [emitChar_cursorAt, emitStr_cursorAt, emitChar_cursorAt]
          simp [childItem, List.append_assoc]
      simp only [emitChildren, hr, if_true]
      rw [hc2, if_neg (cursorAt_no_break cap off (p ++ childItem env r first)),
        ih false (p ++ childItem env r first)]
      simp [childrenDoc, hr, List.append_assoc]
    | false =>
      have hc0 : (if hasEntry tbl r.nexthop then
          emitChar (emitStr (emitChar
            (if first then cursorAt cap off p else emitChar (cursorAt cap off p) ',') '"')
            (env.fmt r.ipaddr)) '"'
        else cursorAt cap off p) = cursorAt cap off p := by
        rw [hr]; rfl
      have hc1 : (if hasEntry tbl r.nexthop then false else first) = first := by
        rw [hr]; rfl
      simp only [emitChildren]
      rw [hc0, hc1, if_neg (cursorAt_no_break cap off p), ih first p]
      simp [childrenDoc, hr]

theorem serializeDag_cursorAt (env : EmitEnv) (st : DagSnapshot) (cap off : Nat)
    (p : List Char) :
    serializeDag env st (cursorAt cap off p)
      = cursorAt cap off (p ++ dagDocument env st) := by
  cases hd : st.defaultRoute with
  | some pa =>
    simp only [serializeDag, hd, emitChar_cursorAt, emitStr_cursorAt,
      emitChildren_cursorAt]
    simp [dagDocument, parentDoc, hd, List.append_assoc]
  | none =>
    simp only [serializeDag, hd, emitChar_cursorAt, emitStr_cursorAt,
      emitChildren_cursorAt]
    simp [dagDocument, parentDoc, hd, List.append_assoc]

theorem serializeDag_fresh (env : EmitEnv) (st : DagSnapshot) (cap off : Nat) :
    serializeDag env st { cap := cap, buf := [], strpos := 0, off := off }
      = cursorAt cap off (dagDocument env st) := by
  have h0 : ({ cap := cap, buf := [], strpos := 0, off := off } : Cursor)
      = cursorAt cap off [] := by
    simp [cursorAt]
  rw [h0, serializeDag_cursorAt]
  simp

theorem plexi_get_dag_handler_eq (env : EmitEnv) (st : DagSnapshot)
    (a : coap_accept) (ha : a ≠ coap_accept.other) (cap : Nat) (offsetIn : Int)
    (notifIn : Bool) (k : Nat)
    (hk : (if notifIn ∨ offsetIn = -1 then 0 else offsetIn.toNat) = k) :
    plexi_get_dag_handler env st a cap offsetIn notifIn =
      { status := if 0 < (((dagDocument env st).drop k).take cap).length
            then CoapStatus.ok
          else if 0 < (dagDocument env st).length then CoapStatus.badOption
          else CoapStatus.unset,
        payload := if 0 < (((dagDocument env st).drop k).take cap).length
            then ((dagDocument env st).drop k).take cap
          else if 0 < (dagDocument env st).length then "BlockOutOfScope".toList
          else [],
        offsetOut := if (dagDocument env st).length ≤ k + cap then -1
          else (k : Int) + (cap : Int),
        notifOut := false } := by
  unfold plexi_get_dag_handler
  rw [if_neg ha]
  dsimp only
  rw [hk, serializeDag_fresh]
  simp only [cursorAt, List.length_take, List.length_drop]

/-- C9: over a fixed snapshot, the serialization pass of an accepted GET
call walks the whole route table and ends with the logical position counter
strpos equal to the length of the full logical output, the same value for
every buffer capacity and every resumption offset, including calls in which
items were skipped or truncated. -/
theorem getdag_strpos_total (env : EmitEnv) (st : DagSnapshot) (cap off : Nat) :
    (serializeDag env st { cap := cap, buf := [], strpos := 0, off := off }).strpos
      = (dagDocument env st).length := by
  rw [serializeDag_fresh]
  rfl

/-- C4: after an accepted GET call with caller-supplied offset k (no pending
notification) over a fixed snapshot, the returned resumption offset is the
sentinel -1 exactly when the total logical length fits within k plus the
buffer capacity, and is otherwise k advanced by exactly the capacity. -/
theorem getdag_offset_advance (env : EmitEnv) (st : DagSnapshot)
    (a : coap_accept) (cap k : Nat) (ha : a ≠ coap_accept.other) :
    (plexi_get_dag_handler env st a cap (k : Int) false).offsetOut
      = if (dagDocument env st).length ≤ k + cap then -1
        else (k : Int) + (cap : Int) := by
  rw [plexi_get_dag_handler_eq env st a ha cap (k : Int) false k
    (by
      have hne : ¬((k : Int) = -1) := by omega
      simp [hne, Int.toNat_natCast])]

/-- C4 witness: over the concrete snapshot (logical length 25), a call with
offset 6 and capacity 4 does not reach the end and returns 6 + 4. -/
theorem getdag_offset_advance_witness :
    (plexi_get_dag_handler envW stW coap_accept.json 4 (6 : Int) false).offsetOut
      = if (dagDocument envW stW).length ≤ 6 + 4 then -1
        else (6 : Int) + (4 : Int) :=
  getdag_offset_advance envW stW coap_accept.json 4 6 (by decide)

/-- C8: when an accepted GET call ends its full serialization pass with zero
bytes placed in the buffer while logical output exists, the handler reports
the distinct no-progress condition BAD_OPTION_4_02 with the BlockOutOfScope
diagnostic payload, rather than returning an empty success. -/
theorem getdag_noprogress (env : EmitEnv) (st : DagSnapshot) (cap : Nat)
    (offsetIn : Int) (notifIn : Bool)
    (h0 : (serializeDag env st (Cursor.mk cap [] 0
        (if notifIn ∨ offsetIn = -1 then 0 else offsetIn.toNat))).buf = [])
    (h1 : 0 < (serializeDag env st (Cursor.mk cap [] 0
        (if notifIn ∨ offsetIn = -1 then 0 else offsetIn.toNat))).strpos) :
    (plexi_get_dag_handler env st coap_accept.json cap offsetIn notifIn).status
        = CoapStatus.badOption
    ∧ (plexi_get_dag_handler env st coap_accept.json cap offsetIn notifIn).payload
        = "BlockOutOfScope".toList := by
  rw [serializeDag_fresh] at h0 h1
  simp only [cursorAt] at h0 h1
  rw [plexi_get_dag_handler_eq env st coap_accept.json (by decide) cap offsetIn
    notifIn (if notifIn ∨ offsetIn = -1 then 0 else offsetIn.toNat) rfl]
  have hlen : ¬(0 < (((dagDocument env st).drop
      (if notifIn ∨ offsetIn = -1 then 0 else offsetIn.toNat)).take cap).length) := by
    rw [h0]
    simp
  refine ⟨?_, ?_⟩ <;> (dsimp only; rw [if_neg hlen, if_pos h1])

/-- C8 witness: capacity 0 over the concrete snapshot fits nothing; the
handler reports BAD_OPTION_4_02 with the BlockOutOfScope payload. -/
theorem getdag_noprogress_witness :
    (plexi_get_dag_handler envW stW coap_accept.json 0 (-1) false).status
        = CoapStatus.badOption
    ∧ (plexi_get_dag_handler envW stW coap_accept.json 0 (-1) false).payload
        = "BlockOutOfScope".toList :=
  getdag_noprogress envW stW 0 (-1) false (by decide) (by decide)

/-- C10: every GET handler invocation, on the accepted path and on the
not-acceptable path alike, leaves the new_notification flag at 0; and on an
accepted call a pending notification (the flag having been set to 1 by
plexi_dag_event_handler) forces the resumption offset back to 0, so the
call restarts serialization from the beginning, behaving exactly like a
fresh call regardless of the caller-supplied offset. -/
theorem getdag_notification_reset (env : EmitEnv) (st : DagSnapshot)
    (a : coap_accept) (cap : Nat) (offsetIn : Int) (notifIn : Bool) :
    (plexi_get_dag_handler env st a cap offsetIn notifIn).notifOut = false
    ∧ (a ≠ coap_accept.other →
      plexi_get_dag_handler env st a cap offsetIn (plexi_dag_event_handler notifIn)
        = plexi_get_dag_handler env st a cap (-1) false) := by
  constructor
  · unfold plexi_get_dag_handler
    split
    · rfl
    · rfl
  · intro ha
    rw [plexi_get_dag_handler_eq env st a ha cap offsetIn
        (plexi_dag_event_handler notifIn) 0 (by simp [plexi_dag_event_handler]),
      plexi_get_dag_handler_eq env st a ha cap (-1) false 0 (by simp)]

/-- C10 witness: with a notification pending, a continuation call with
offset 7 returns the same result as a fresh call. -/
theorem getdag_notification_reset_witness :
    plexi_get_dag_handler envW stW coap_accept.json 4 7 (plexi_dag_event_handler false)
      = plexi_get_dag_handler envW stW coap_accept.json 4 (-1) false :=
  (getdag_notification_reset envW stW coap_accept.json 4 7 false).2 (by decide)

/-- C3 counterexample: the not-acceptable path does mutate state: invoked
with the notification flag at 1, it leaves the flag at 0 (source line 242
sets new_notification = 0 before returning the 406 status), so the flag is
not unchanged as claimed. -/
theorem getdag_notacceptable_counterexample :
    ¬((plexi_get_dag_handler envW stW coap_accept.other 4 3 true).notifOut = true) := by
  decide

/-- C3 amended: when the accept header is present and not JSON, the handler
responds NOT_ACCEPTABLE_4_06, leaves the resumption offset unchanged and
performs no serialization, but it does clear the new_notification flag
to 0. -/
theorem getdag_notacceptable_terminal (env : EmitEnv) (st : DagSnapshot)
    (cap : Nat) (offsetIn : Int) (notifIn : Bool) :
    plexi_get_dag_handler env st coap_accept.other cap offsetIn notifIn
      = { status := CoapStatus.notAcceptable, payload := [],
          offsetOut := offsetIn, notifOut := false } := by
  rfl

theorem collectChunks_inv (env : EmitEnv) (st : DagSnapshot) (cap : Nat)
    (hcap : 1 ≤ cap) :
    ∀ (fuel k : Nat) (off : Int) (notif : Bool),
      (if notif ∨ off = -1 then 0 else off.toNat) = k →
      k < (dagDocument env st).length →
      (dagDocument env st).length ≤ k + fuel * cap →
      collectChunks env st cap fuel off notif ((dagDocument env st).take k)
        = dagDocument env st := by
  intro fuel
  induction fuel with
  | zero =>
    intro k off notif _ hk2 hk3
    omega
  | succ f ih =>
    intro k off notif hk hk2 hk3
    have hlen : 0 < (((dagDocument env st).drop k).take cap).length := by
      rw [List.length_take, List.length_drop]
      omega
    simp only [collectChunks]
    rw [plexi_get_dag_handler_eq env st coap_accept.json (by decide) cap off notif k hk]
    dsimp only
    simp only [if_pos hlen]
    by_cases hend : (dagDocument env st).length ≤ k + cap
    · simp only [if_pos hend, if_pos rfl]
      rw [← List.take_add]
      exact List.take_of_length_le (by omega)
    · simp only [if_neg hend, if_pos rfl]
      rw [if_neg (by omega : ¬((k : Int) + (cap : Int) = -1))]
      rw [← List.take_add]
      have hco : ((k : Int) + (cap : Int)) = ((k + cap : Nat) : Int) := by
        push_cast
        ring
      rw [hco]
      have hknext : (if false ∨ ((k + cap : Nat) : Int) = -1 then 0
          else ((k + cap : Nat) : Int).toNat) = k + cap := by
        rw [if_neg]
        · exact Int.toNat_natCast _
        · intro h
          rcases h with h | h
          · simp at h
          · omega
      refine ih (k + cap) _ false hknext (by omega) ?_
      rw [Nat.succ_mul] at hk3
      omega

/-- C1: chunk completeness. Over any fixed snapshot, with any buffer
capacity of at least one byte (the atomic item of the byte-granular emit
primitives), repeatedly invoking the GET handler starting from the fresh
sentinel -1 and feeding back the returned resumption offset until the
sentinel returns yields chunks whose concatenation is byte-identical to the
single-shot serialization of the same state with unbounded capacity (a
buffer as large as the whole logical output). -/
theorem getdag_chunk_complete (env : EmitEnv) (st : DagSnapshot) (cap : Nat)
    (notif0 : Bool) (hcap : 1 ≤ cap) :
    (serializeDag env st (Cursor.mk ((dagDocument env st).length) [] 0 0)).buf
        = dagDocument env st
    ∧ collectChunks env st cap ((dagDocument env st).length) (-1) notif0 []
        = dagDocument env st := by
  have hlen : 0 < (dagDocument env st).length := by
    simp [dagDocument]
  constructor
  · rw [serializeDag_fresh]
    simp [cursorAt]
  · have h0 : (if notif0 ∨ (-1 : Int) = -1 then 0 else (-1 : Int).toNat) = 0 := by
      simp
    have hmul : (dagDocument env st).length
        ≤ 0 + (dagDocument env st).length * cap := by
      have := Nat.le_mul_of_pos_right (dagDocument env st).length
        (by omega : 0 < cap)
      omega
    have hres := collectChunks_inv env st cap hcap ((dagDocument env st).length)
      0 (-1) notif0 h0 hlen hmul
    simpa using hres

/-- C1 witness: with capacity 1 the chunk loop reconstructs the full
document of the concrete snapshot. -/
theorem getdag_chunk_complete_witness :
    (serializeDag envW stW (Cursor.mk ((dagDocument envW stW).length) [] 0 0)).buf
        = dagDocument envW stW
    ∧ collectChunks envW stW 1 ((dagDocument envW stW).length) (-1) false []
        = dagDocument envW stW :=
  getdag_chunk_complete envW stW 1 false (by decide)

/-! Reachability-table lemmas for the bounded-table property. -/

theorem liveCount_cons_live (s : plexi_actual_route) (rest : List plexi_actual_route)
    (h : s.last_seen ≠ -1) : liveCount (s :: rest) = liveCount rest + 1 := by
  have hb : (s.last_seen != -1) = true := by simp [bne_iff_ne, h]
  simp [liveCount, List.filter_cons, hb]

theorem liveCount_cons_free (s : plexi_actual_route) (rest : List plexi_actual_route)
    (h : s.last_seen = -1) : liveCount (s :: rest) = liveCount rest := by
  simp [liveCount, List.filter_cons, h]

theorem liveCount_le_length (tbl : List plexi_actual_route) :
    liveCount tbl ≤ tbl.length :=
  List.length_filter_le _ tbl

theorem hasFree_cons_iff (s : plexi_actual_route) (rest : List plexi_actual_route) :
    hasFree (s :: rest) = ((s.last_seen == -1) || hasFree rest) := by
  simp [hasFree, List.any_cons]

theorem liveCount_eq_length_of_noFree (tbl : List plexi_actual_route)
    (h : hasFree tbl = false) : liveCount tbl = tbl.length := by
  induction tbl with
  | nil => rfl
  | cons s rest ih =>
    rw [hasFree_cons_iff, Bool.or_eq_false_iff] at h
    have hs : s.last_seen ≠ -1 := beq_eq_false_iff_ne.mp h.1
    rw [liveCount_cons_live s rest hs, ih h.2, List.length_cons]

theorem liveCount_lt_of_hasFree (tbl : List plexi_actual_route)
    (h : hasFree tbl = true) : liveCount tbl < tbl.length := by
  induction tbl with
  | nil => simp [hasFree] at h
  | cons s rest ih =>
    rw [hasFree_cons_iff, Bool.or_eq_true] at h
    by_cases hs : s.last_seen = -1
    · rw [liveCount_cons_free s rest hs, List.length_cons]
      have := liveCount_le_length rest
      omega
    · have hrest : hasFree rest = true := by
        rcases h with h | h
        · exact absurd (by simpa using h) hs
        · exact h
      rw [liveCount_cons_live s rest hs, List.length_cons]
      have := ih hrest
      omega

theorem packet_received_refresh_length (tbl : List plexi_actual_route) (a t : Nat) :
    (packet_received_refresh tbl a t).length = tbl.length := by
  induction tbl with
  | nil => rfl
  | cons s rest ih =>
    by_cases hr : s.route = a
    · simp [packet_received_refresh, hr]
    · simp [packet_received_refresh, hr, ih]

theorem packet_received_claim_length (tbl : List plexi_actual_route) (a t : Nat) :
    (packet_received_claim tbl a t).length = tbl.length := by
  induction tbl with
  | nil => rfl
  | cons s rest ih =>
    by_cases hs : s.last_seen = -1
    · simp [packet_received_claim, hs]
    · simp [packet_received_claim, hs, ih]

theorem packet_received_refresh_id (tbl : List plexi_actual_route) (a t : Nat)
    (h : ∀ s ∈ tbl, s.route ≠ a) : packet_received_refresh tbl a t = tbl := by
  induction tbl with
  | nil => rfl
  | cons s rest ih =>
    have hs : s.route ≠ a := h s (List.mem_cons_self s rest)
    rw [packet_received_refresh, if_neg hs,
      ih (fun x hx => h x (List.mem_cons_of_mem s hx))]

theorem packet_received_claim_id (tbl : List plexi_actual_route) (a t : Nat)
    (h : hasFree tbl = false) : packet_received_claim tbl a t = tbl := by
  induction tbl with
  | nil => rfl
  | cons s rest ih =>
    rw [hasFree_cons_iff, Bool.or_eq_false_iff] at h
    have hs : s.last_seen ≠ -1 := beq_eq_false_iff_ne.mp h.1
    rw [packet_received_claim, if_neg hs, ih h.2]

theorem packet_received_refresh_liveCount (tbl : List plexi_actual_route) (a t : Nat) :
    liveCount tbl ≤ liveCount (packet_received_refresh tbl a t) := by
  induction tbl with
  | nil => simp [packet_received_refresh]
  | cons s rest ih =>
    by_cases hr : s.route = a
    · rw [packet_received_refresh, if_pos hr,
        liveCount_cons_live { s with last_seen := ((t : Nat) : Int) } rest
          (show ((t : Nat) : Int) ≠ -1 by omega)]
      by_cases hs : s.last_seen = -1
      · rw [liveCount_cons_free s rest hs]
        omega
      · rw [liveCount_cons_live s rest hs]
    · rw [packet_received_refresh, if_neg hr]
      by_cases hs : s.last_seen = -1
      · rw [liveCount_cons_free s (packet_received_refresh rest a t) hs,
          liveCount_cons_free s rest hs]
        exact ih
      · rw [liveCount_cons_live s (packet_received_refresh rest a t) hs,
          liveCount_cons_live s rest hs]
        omega

theorem packet_received_claim_liveCount (tbl : List plexi_actual_route) (a t : Nat)
    (h : hasFree tbl = true) :
    liveCount (packet_received_claim tbl a t) = liveCount tbl + 1 := by
  induction tbl with
  | nil => simp [hasFree] at h
  | cons s rest ih =>
    by_cases hs : s.last_seen = -1
    · rw [packet_received_claim, if_pos hs,
        liveCount_cons_live { route := a, last_seen := ((t : Nat) : Int) } rest
          (show ((t : Nat) : Int) ≠ -1 by omega),
        liveCount_cons_free s rest hs]
    · rw [hasFree_cons_iff, Bool.or_eq_true] at h
      have hrest : hasFree rest = true := by
        rcases h with h | h
        · exact absurd (by simpa using h) hs
        · exact h
      rw [packet_received_claim, if_neg hs,
        liveCount_cons_live s (packet_received_claim rest a t) hs,
        liveCount_cons_live s rest hs, ih hrest]

theorem observe_liveCount_step (tbl : List plexi_actual_route) (a t : Nat) :
    min tbl.length (liveCount tbl + 1)
      ≤ liveCount (plexi_rpl_packet_received tbl a t) := by
  unfold plexi_rpl_packet_received
  have h1 := packet_received_refresh_liveCount tbl a t
  have h2 := packet_received_refresh_length tbl a t
  by_cases hf : hasFree (packet_received_refresh tbl a t)
  · rw [packet_received_claim_liveCount _ a t hf]
    omega
  · rw [packet_received_claim_id _ a t (by simpa using hf)]
    have h3 := liveCount_eq_length_of_noFree _ (by simpa using hf)
    omega

theorem runObserves_cons (p : Nat × Nat) (qs : List (Nat × Nat))
    (tbl : List plexi_actual_route) :
    runObserves (p :: qs) tbl
      = runObserves qs (plexi_rpl_packet_received tbl p.1 p.2) := rfl

theorem runObserves_length (qs : List (Nat × Nat)) :
    ∀ tbl : List plexi_actual_route, (runObserves qs tbl).length = tbl.length := by
  induction qs with
  | nil => intro tbl; rfl
  | cons p qs ih =>
    intro tbl
    rw [runObserves_cons, ih]
    unfold plexi_rpl_packet_received
    rw [packet_received_claim_length, packet_received_refresh_length]

theorem runObserves_liveCount (qs : List (Nat × Nat)) :
    ∀ tbl : List plexi_actual_route,
      min tbl.length (liveCount tbl + qs.length) ≤ liveCount (runObserves qs tbl) := by
  induction qs with
  | nil =>
    intro tbl
    have := liveCount_le_length tbl
    show min tbl.length (liveCount tbl + 0) ≤ liveCount tbl
    omega
  | cons p qs ih =>
    intro tbl
    rw [runObserves_cons]
    have hstep := observe_liveCount_step tbl p.1 p.2
    have hlen : (plexi_rpl_packet_received tbl p.1 p.2).length = tbl.length := by
      unfold plexi_rpl_packet_received
      rw [packet_received_claim_length, packet_received_refresh_length]
    have hrec := ih (plexi_rpl_packet_received tbl p.1 p.2)
    rw [hlen] at hrec
    have hlc := liveCount_le_length (plexi_rpl_packet_received tbl p.1 p.2)
    rw [hlen] at hlc
    simp only [List.length_cons]
    omega

theorem packet_received_refresh_inv (a t : Nat) (S : List Nat) (ha : a ∈ S) :
    ∀ tbl : List plexi_actual_route,
      (∀ s ∈ tbl, s.last_seen ≠ -1 → s.route ∈ S) →
      ∀ s ∈ packet_received_refresh tbl a t, s.last_seen ≠ -1 → s.route ∈ S := by
  intro tbl
  induction tbl with
  | nil => intro _ s hs; simp [packet_received_refresh] at hs
  | cons x rest ih =>
    intro h s hs hlive
    by_cases hr : x.route = a
    · rw [packet_received_refresh, if_pos hr] at hs
      rcases List.mem_cons.mp hs with hs | hs
      · subst hs
        show x.route ∈ S
        rw [hr]
        exact ha
      · exact h s (List.mem_cons_of_mem x hs) hlive
    · rw [packet_received_refresh, if_neg hr] at hs
      rcases List.mem_cons.mp hs with hs | hs
      · rw [hs] at hlive ⊢
        exact h x (List.mem_cons_self x rest) hlive
      · exact ih (fun y hy => h y (List.mem_cons_of_mem x hy)) s hs hlive

theorem packet_received_claim_inv (a t : Nat) (S : List Nat) (ha : a ∈ S) :
    ∀ tbl : List plexi_actual_route,
      (∀ s ∈ tbl, s.last_seen ≠ -1 → s.route ∈ S) →
      ∀ s ∈ packet_received_claim tbl a t, s.last_seen ≠ -1 → s.route ∈ S := by
  intro tbl
  induction tbl with
  | nil => intro _ s hs; simp [packet_received_claim] at hs
  | cons x rest ih =>
    intro h s hs hlive
    by_cases hx : x.last_seen = -1
    · rw [packet_received_claim, if_pos hx] at hs
      rcases List.mem_cons.mp hs with hs | hs
      · subst hs
        exact ha
      · exact h s (List.mem_cons_of_mem x hs) hlive
    · rw [packet_received_claim, if_neg hx] at hs
      rcases List.mem_cons.mp hs with hs | hs
      · rw [hs] at hlive ⊢
        exact h x (List.mem_cons_self x rest) hlive
      · exact ih (fun y hy => h y (List.mem_cons_of_mem x hy)) s hs hlive

theorem runObserves_inv (S : List Nat) :
    ∀ (qs : List (Nat × Nat)) (tbl : List plexi_actual_route),
      (∀ p ∈ qs, p.1 ∈ S) →
      (∀ s ∈ tbl, s.last_seen ≠ -1 → s.route ∈ S) →
      ∀ s ∈ runObserves qs tbl, s.last_seen ≠ -1 → s.route ∈ S := by
  intro qs
  induction qs with
  | nil => intro tbl _ h; exact h
  | cons p qs ih =>
    intro tbl hq h
    rw [runObserves_cons]
    apply ih
    · intro x hx
      exact hq x (List.mem_cons_of_mem p hx)
    · show ∀ s ∈ plexi_rpl_packet_received tbl p.1 p.2, s.last_seen ≠ -1 → s.route ∈ S
      unfold plexi_rpl_packet_received
      exact packet_received_claim_inv p.1 p.2 S (hq p (List.mem_cons_self p qs)) _
        (packet_received_refresh_inv p.1 p.2 S (hq p (List.mem_cons_self p qs)) tbl h)

theorem initTable_length (n : Nat) : (initTable n).length = n := by
  simp [initTable]

theorem liveCount_initTable (n : Nat) : liveCount (initTable n) = 0 := by
  simp [liveCount, initTable, List.filter_replicate]

theorem initTable_inv (n : Nat) (S : List Nat) :
    ∀ s ∈ initTable n, s.last_seen ≠ -1 → s.route ∈ S := by
  intro s hs hlive
  have hform := List.eq_of_mem_replicate (by simpa [initTable] using hs)
  rw [hform] at hlive
  simp at hlive

theorem all_live_of_noFree (tbl : List plexi_actual_route)
    (h : hasFree tbl = false) : ∀ s ∈ tbl, s.last_seen ≠ -1 := by
  rw [hasFree, List.any_eq_false] at h
  intro s hs
  have := h s hs
  simpa using this

theorem hasEntry_eq_false (tbl : List plexi_actual_route) (b : Nat)
    (h : ∀ s ∈ tbl, s.last_seen ≠ -1 → s.route ≠ b) : hasEntry tbl b = false := by
  rw [hasEntry, List.any_eq_false]
  intro s hs hcon
  simp only [Bool.and_eq_true, beq_iff_eq, bne_iff_ne] at hcon
  exact h s hs hcon.2 hcon.1

/-- C7: bounded table with silent drop. Starting from the empty table of
capacity n, after n observations and one more for a fresh address b (all
n + 1 addresses pairwise distinct), exactly n live entries exist, b has no
entry, and the call for b is a no-op: the table is returned unchanged, with
no growth and no eviction-on-demand. -/
theorem table_bounded_silent_drop (n : Nat) (qs : List (Nat × Nat)) (b t : Nat)
    (hlen : qs.length = n)
    (hnodup : ((qs.map Prod.fst) ++ [b]).Nodup) :
    plexi_rpl_packet_received (runObserves qs (initTable n)) b t
        = runObserves qs (initTable n)
    ∧ liveCount (runObserves qs (initTable n)) = n
    ∧ hasEntry (runObserves qs (initTable n)) b = false := by
  have hTlen : (runObserves qs (initTable n)).length = n := by
    rw [runObserves_length, initTable_length]
  have hmin := runObserves_liveCount qs (initTable n)
  rw [initTable_length, liveCount_initTable, hlen] at hmin
  have hle := liveCount_le_length (runObserves qs (initTable n))
  rw [hTlen] at hle
  have hlive : liveCount (runObserves qs (initTable n)) = n := by omega
  have hinv : ∀ s ∈ runObserves qs (initTable n), s.last_seen ≠ -1 →
      s.route ∈ qs.map Prod.fst :=
    runObserves_inv (qs.map Prod.fst) qs (initTable n)
      (fun p hp => List.mem_map_of_mem Prod.fst hp)
      (initTable_inv n (qs.map Prod.fst))
  have hbnot : b ∉ qs.map Prod.fst := by
    rcases List.nodup_append.mp hnodup with ⟨_, _, hdisj⟩
    intro hb
    exact hdisj hb (List.mem_singleton.mpr rfl)
  have hroutes : ∀ s ∈ runObserves qs (initTable n), s.last_seen ≠ -1 →
      s.route ≠ b := by
    intro s hs hl hcon
    exact hbnot (hcon ▸ hinv s hs hl)
  have hnofree : hasFree (runObserves qs (initTable n)) = false := by
    by_contra hcontra
    have htrue : hasFree (runObserves qs (initTable n)) = true := by
      simpa using hcontra
    have := liveCount_lt_of_hasFree _ htrue
    omega
  have halll := all_live_of_noFree _ hnofree
  refine ⟨?_, hlive, hasEntry_eq_false _ b hroutes⟩
  unfold plexi_rpl_packet_received
  rw [packet_received_refresh_id _ b t (fun s hs => hroutes s hs (halll s hs)),
    packet_received_claim_id _ b t hnofree]

/-- C7 witness: capacity 2, distinct addresses 5 and 9 fill the table; the
third distinct address 7 is silently dropped. -/
theorem table_bounded_silent_drop_witness :
    plexi_rpl_packet_received (runObserves [(5, 0), (9, 1)] (initTable 2)) 7 3
        = runObserves [(5, 0), (9, 1)] (initTable 2)
    ∧ liveCount (runObserves [(5, 0), (9, 1)] (initTable 2)) = 2
    ∧ hasEntry (runObserves [(5, 0), (9, 1)] (initTable 2)) 7 = false :=
  table_bounded_silent_drop 2 [(5, 0), (9, 1)] 7 3 rfl (by decide)
